import Mathlib

/-!
# Verification of the healthcare-redaction engine

Shallow embedding of the redaction engine of this repository
(`src/utils/redactionEngine.ts`, `src/patterns/phiPatterns.ts`,
`src/encryption/hipaaEncryption.ts`, `src/index.ts`) and proofs about it.

JavaScript regular expressions are embedded as an explicit AST (`RE`) with a
backtracking matcher (`accepts`) that mirrors ECMAScript semantics for the
constructs the catalog uses: character classes, alternation (preferring the
left alternative), greedy `?`/`*`/`+`/`{n,m}` (with the ECMAScript rule that a
`*` iteration matching the empty string is abandoned), and the word-boundary
assertion. The matcher is fueled; the fuel only bounds recursion depth, and
`acceptsTop` supplies `sizeRE re + input length + 1`, which dominates the
depth of any backtracking path (each recursive level either shrinks the
expression or advances the position).

Strings are processed as `List Char`; all inputs in this development are
ASCII, where JavaScript's UTF-16 `.length` and Lean's character count agree.
-/

namespace Redact

/-- Severity levels of a PHI pattern (`'HIGH' | 'MEDIUM' | 'LOW'` in
`src/types/phi.ts`). -/
inductive Severity where
  | HIGH | MEDIUM | LOW
deriving DecidableEq, Repr

/-- `PHICategory` enum from `src/types/phi.ts`. -/
inductive PHICategory where
  | DIRECT_IDENTIFIER | HEALTHCARE_ID | TEMPORAL | GEOGRAPHIC
  | CONTACT | FINANCIAL | BIOMETRIC | CLINICAL
deriving DecidableEq, Repr

/-- Regular-expression AST covering the constructs used by the PHI catalog.
`cls` is a single-character class (a predicate on characters), `wordB` is the
ECMAScript `\b` assertion, `opt`/`star` are the greedy `?` and `*`. -/
inductive RE where
  | eps
  | cls (p : Char → Bool)
  | seq (a b : RE)
  | alt (a b : RE)
  | opt (b : RE)
  | star (b : RE)
  | wordB

namespace RE

/-- Structural size of a regex, used to budget the matcher's fuel. -/
def sizeRE : RE → Nat
  | eps => 1
  | cls _ => 1
  | seq a b => sizeRE a + sizeRE b + 1
  | alt a b => sizeRE a + sizeRE b + 1
  | opt b => sizeRE b + 1
  | star b => sizeRE b + 1
  | wordB => 1

/-- Whether the regex can match the empty string (syntactic over-approximation
used for the termination analysis of the replacement loop). -/
def nullable : RE → Bool
  | eps => true
  | cls _ => false
  | seq a b => nullable a && nullable b
  | alt a b => nullable a || nullable b
  | opt _ => true
  | star _ => true
  | wordB => true

end RE

/-- ECMAScript word character (`\w`), as used by the `\b` assertion. -/
def wordChar (c : Char) : Bool :=
  c.isAlpha || c.isDigit || c = '_'

/-- ECMAScript whitespace (`\s`); the catalog's inputs are ASCII, the
characters beyond the ASCII range are included for completeness. -/
def jsSpace (c : Char) : Bool :=
  c = ' ' || c = '\t' || c = '\n' || c = '\r' || c.val = 0x0b || c.val = 0x0c ||
  c.val = 0xa0 || c.val = 0x1680 || (0x2000 ≤ c.val && c.val ≤ 0x200a) ||
  c.val = 0x2028 || c.val = 0x2029 || c.val = 0x202f || c.val = 0x205f ||
  c.val = 0x3000 || c.val = 0xfeff

/-- The `\b` assertion holds at `pos` iff exactly one of the neighbouring
characters is a word character (out-of-range counts as non-word). -/
def isBoundary (s : List Char) (pos : Nat) : Bool :=
  let before : Bool :=
    match pos with
    | 0 => false
    | p + 1 => match s.get? p with | some c => wordChar c | none => false
  let here : Bool :=
    match s.get? pos with | some c => wordChar c | none => false
  before != here

/-- Fueled backtracking matcher. `accepts fuel re s pos` returns the list of
end positions of matches of `re` starting at `pos`, in ECMAScript preference
order (head = the match the engine commits to). A `star` iteration is only
taken when it advances the position, mirroring the ECMAScript rule that an
empty repetition is abandoned. -/
def accepts : Nat → RE → List Char → Nat → List Nat
  | 0, _, _, _ => []
  | _ + 1, .eps, _, pos => [pos]
  | _ + 1, .wordB, s, pos => if isBoundary s pos then [pos] else []
  | _ + 1, .cls p, s, pos =>
      match s.get? pos with
      | some c => if p c then [pos + 1] else []
      | none => []
  | fuel + 1, .seq a b, s, pos =>
      (accepts fuel a s pos).flatMap fun e => accepts fuel b s e
  | fuel + 1, .alt a b, s, pos =>
      accepts fuel a s pos ++ accepts fuel b s pos
  | fuel + 1, .opt b, s, pos =>
      accepts fuel b s pos ++ [pos]
  | fuel + 1, .star b, s, pos =>
      (((accepts fuel b s pos).filter fun e => pos < e).flatMap fun e =>
        accepts fuel (.star b) s e) ++ [pos]

/-- Matcher with sufficient fuel (the fuel bounds only recursion depth; every
level either shrinks the expression or advances the position, so
`sizeRE re + s.length + 1` dominates it). -/
def acceptsTop (re : RE) (s : List Char) (pos : Nat) : List Nat :=
  accepts (re.sizeRE + s.length + 1) re s pos

/-- `regex.exec` on a global regex with `lastIndex = i`: scan forward from `i`
for the first position where a match starts; return (index, end). Returns
`none` when `i` is past the end or no match exists. -/
def findMatchFromAux (re : RE) (s : List Char) : Nat → Nat → Option (Nat × Nat)
  | 0, _ => none
  | fuel + 1, i =>
      if i ≤ s.length then
        match acceptsTop re s i with
        | e :: _ => some (i, e)
        | [] => findMatchFromAux re s fuel (i + 1)
      else none

/-- Entry point for the forward scan: enough fuel to try every start
position from `i` to `s.length`. -/
def findMatchFrom (re : RE) (s : List Char) (i : Nat) : Option (Nat × Nat) :=
  findMatchFromAux re s (s.length + 1 - i) i

/-! ## Regex construction helpers

Capturing and non-capturing groups of the source regexes are both rendered as
plain grouping: none of the engine's code uses capture values (only
`match[0]` and `match.index`), so captures have no observable effect.
Case-insensitive (`i`-flag) literals and classes are rendered by widening the
character predicate. -/

/-- Single literal character. -/
def chr (c : Char) : RE := .cls (· = c)

/-- Case-insensitive literal character (for `i`-flagged regexes). -/
def ichr (c : Char) : RE := .cls (fun x => x.toLower = c.toLower)

/-- Sequence of regexes. -/
def seqL (rs : List RE) : RE := rs.foldr .seq .eps

/-- Case-sensitive literal string. -/
def strRE (s : String) : RE := seqL (s.data.map chr)

/-- Case-insensitive literal string. -/
def istr (s : String) : RE := seqL (s.data.map ichr)

/-- Greedy `+`, i.e. `r` followed by `r*`. -/
def plus (r : RE) : RE := .seq r (.star r)

/-- `{n}`: exactly `n` copies. -/
def rep (n : Nat) (r : RE) : RE := seqL (List.replicate n r)

/-- `{n,m}`: `n` mandatory copies followed by `m - n` greedy-optional copies
(equivalent to the ECMAScript quantifier for the single-character bodies the
catalog uses). -/
def repRange (n m : Nat) (r : RE) : RE :=
  .seq (rep n r) (seqL (List.replicate (m - n) (.opt r)))

/-- Alternation list, preferring earlier alternatives (ECMAScript order). -/
def altL : List RE → RE
  | [] => .eps
  | [r] => r
  | r :: rs => .alt r (altL rs)

/-- `\d` / `[0-9]`. -/
def digit : RE := .cls Char.isDigit

/-- `[A-Z]` without the `i` flag. -/
def upper : RE := .cls fun c => 'A' ≤ c && c ≤ 'Z'

/-- `[A-Z]` or `[a-z]` under the `i` flag: any ASCII letter. -/
def letter : RE := .cls Char.isAlpha

/-- `[A-Z0-9]` under the `i` flag: ASCII letter or digit. -/
def alnumI : RE := .cls fun c => c.isAlpha || c.isDigit

/-- `\s`. -/
def spaceCls : RE := .cls jsSpace

/-- `[\s-]`. -/
def spaceDash : RE := .cls fun c => jsSpace c || c = '-'

/-- `[\s:]`. -/
def spaceColon : RE := .cls fun c => jsSpace c || c = ':'

/-- `[\s#:]`. -/
def spaceHashColon : RE := .cls fun c => jsSpace c || c = '#' || c = ':'

/-- `[-.\s]`. -/
def dotDashSpace : RE := .cls fun c => c = '-' || c = '.' || jsSpace c

/-- `[-\s]`. -/
def dashSpace : RE := .cls fun c => c = '-' || jsSpace c

/-- `[/\x2d]`. -/
def slashDash : RE := .cls fun c => c = '/' || c = '-'

/-- `[\s.]`. -/
def spaceDot : RE := .cls fun c => jsSpace c || c = '.'

/-! ## Data model (`src/types/phi.ts`) -/

/-- `PHIPattern` interface: a named detection rule. `regex` is the embedded
AST of the source's regular expression. -/
structure PHIPattern where
  name : String
  description : String
  regex : RE
  category : PHICategory
  severity : Severity
  replacement : String

/-- `RedactionOptions` interface. Optional fields are `Option`s; JavaScript
truthiness of each field is modelled where the engine tests it. -/
structure RedactionOptions where
  preserveFormat : Option Bool := none
  maskCharacter : Option String := none
  encryptionKey : Option String := none
  categories : Option (List PHICategory) := none
  customPatterns : Option (List PHIPattern) := none

/-- One element of `RedactionResult.matches`. -/
structure MatchEntry where
  pattern : String
  category : PHICategory
  position : Nat
  length : Nat
  severity : Severity
deriving DecidableEq, Repr

/-- `RedactionResult` interface. -/
structure RedactionResult where
  original : String
  redacted : String
  «matches» : List MatchEntry
  encrypted : Bool
deriving DecidableEq, Repr

/-! ## The PHI pattern catalog (`src/patterns/phiPatterns.ts`)

Each entry transcribes one element of `PHI_PATTERNS`, in source order; the
doc comment quotes the source regex literally. -/

/-- `SSN`: `/\b\d{3}-?\d{2}-?\d{4}\b/g`. -/
def ssnPattern : PHIPattern :=
  { name := "SSN", description := "Social Security Number"
    regex := seqL [.wordB, rep 3 digit, .opt (chr '-'), rep 2 digit,
      .opt (chr '-'), rep 4 digit, .wordB]
    category := .DIRECT_IDENTIFIER, severity := .HIGH
    replacement := "XXX-XX-XXXX" }

/-- `MRN`: `/\b(?:MRN|mrn|medical[\s-]?record[\s-]?(?:number|#|num))[\s:]*(\d{6,12})\b/gi`. -/
def mrnPattern : PHIPattern :=
  { name := "MRN", description := "Medical Record Number"
    regex := seqL [.wordB,
      altL [istr "MRN", istr "mrn",
        seqL [istr "medical", .opt spaceDash, istr "record", .opt spaceDash,
          altL [istr "number", chr '#', istr "num"]]],
      .star spaceColon, repRange 6 12 digit, .wordB]
    category := .HEALTHCARE_ID, severity := .HIGH
    replacement := "MRN: [REDACTED]" }

/-- `PATIENT_ID`: `/\b(?:patient[\s-]?id|pid|pt[\s-]?id)[\s:]*([A-Z0-9]{6,12})\b/gi`. -/
def patientIdPattern : PHIPattern :=
  { name := "PATIENT_ID", description := "Patient ID Number"
    regex := seqL [.wordB,
      altL [seqL [istr "patient", .opt spaceDash, istr "id"], istr "pid",
        seqL [istr "pt", .opt spaceDash, istr "id"]],
      .star spaceColon, repRange 6 12 alnumI, .wordB]
    category := .HEALTHCARE_ID, severity := .HIGH
    replacement := "PATIENT_ID: [REDACTED]" }

/-- `PHONE`: `/\b(?:\+?1[-.\s]?)?\(?([0-9]{3})\)?[-.\s]?([0-9]{3})[-.\s]?([0-9]{4})\b/g`. -/
def phonePattern : PHIPattern :=
  { name := "PHONE", description := "Phone Numbers"
    regex := seqL [.wordB,
      .opt (seqL [.opt (chr '+'), chr '1', .opt dotDashSpace]),
      .opt (chr '('), rep 3 digit, .opt (chr ')'), .opt dotDashSpace,
      rep 3 digit, .opt dotDashSpace, rep 4 digit, .wordB]
    category := .CONTACT, severity := .HIGH
    replacement := "(XXX) XXX-XXXX" }

/-- `EMAIL`: `/\b[A-Za-z0-9._%+-]+@[A-Za-z0-9.-]+\.[A-Z|a-z]{2,}\b/g`
(note the literal `|` inside the final class, faithfully included). -/
def emailPattern : PHIPattern :=
  { name := "EMAIL", description := "Email Addresses"
    regex := seqL [.wordB,
      plus (.cls fun c => c.isAlpha || c.isDigit || c = '.' || c = '_' ||
        c = '%' || c = '+' || c = '-'),
      chr '@',
      plus (.cls fun c => c.isAlpha || c.isDigit || c = '.' || c = '-'),
      chr '.',
      rep 2 (.cls fun c => c.isAlpha || c = '|'),
      .star (.cls fun c => c.isAlpha || c = '|'), .wordB]
    category := .CONTACT, severity := .HIGH
    replacement := "[EMAIL_REDACTED]" }

/-- `PERSON_NAME`: `/\b(?:patient|dr|doctor|mr|mrs|ms)[\s.]([A-Z][a-z]+\s+[A-Z][a-z]+)\b/gi`. -/
def personNamePattern : PHIPattern :=
  { name := "PERSON_NAME", description := "Person Names"
    regex := seqL [.wordB,
      altL [istr "patient", istr "dr", istr "doctor", istr "mr", istr "mrs",
        istr "ms"],
      spaceDot, letter, plus letter, plus spaceCls, letter, plus letter,
      .wordB]
    category := .DIRECT_IDENTIFIER, severity := .HIGH
    replacement := "[NAME_REDACTED]" }

/-- `INSURANCE_ID`: `/\b(?:insurance[\s-]?id|member[\s-]?id|policy[\s-]?(?:number|#))[\s:]*([A-Z0-9]{6,15})\b/gi`. -/
def insuranceIdPattern : PHIPattern :=
  { name := "INSURANCE_ID", description := "Insurance ID Numbers"
    regex := seqL [.wordB,
      altL [seqL [istr "insurance", .opt spaceDash, istr "id"],
        seqL [istr "member", .opt spaceDash, istr "id"],
        seqL [istr "policy", .opt spaceDash, altL [istr "number", chr '#']]],
      .star spaceColon, repRange 6 15 alnumI, .wordB]
    category := .HEALTHCARE_ID, severity := .HIGH
    replacement := "INSURANCE_ID: [REDACTED]" }

/-- `MEDICARE`: `/\b\d{3}-\d{2}-\d{4}[A-Z]\d?\b/g`. -/
def medicarePattern : PHIPattern :=
  { name := "MEDICARE", description := "Medicare Numbers"
    regex := seqL [.wordB, rep 3 digit, chr '-', rep 2 digit, chr '-',
      rep 4 digit, upper, .opt digit, .wordB]
    category := .HEALTHCARE_ID, severity := .HIGH
    replacement := "XXX-XX-XXXXX" }

/-- `DEA_NUMBER`: `/\b[A-Z]{2}\d{7}\b/g`. -/
def deaPattern : PHIPattern :=
  { name := "DEA_NUMBER", description := "DEA Number for Prescribing"
    regex := seqL [.wordB, rep 2 upper, rep 7 digit, .wordB]
    category := .HEALTHCARE_ID, severity := .HIGH
    replacement := "[DEA_REDACTED]" }

/-- `NPI`: `/\b(?:NPI|npi)[\s:]*(\d{10})\b/gi`. -/
def npiPattern : PHIPattern :=
  { name := "NPI", description := "National Provider Identifier"
    regex := seqL [.wordB, .alt (istr "NPI") (istr "npi"), .star spaceColon,
      rep 10 digit, .wordB]
    category := .HEALTHCARE_ID, severity := .HIGH
    replacement := "NPI: [REDACTED]" }

/-- `DATE`:
`/\b(?:\d{1,2}[/\x2d]\d{1,2}[/\x2d]\d{4}|\d{4}[/\x2d]\d{1,2}[/\x2d]\d{1,2}|(?:Jan|Feb|Mar|Apr|May|Jun|Jul|Aug|Sep|Oct|Nov|Dec)[a-z]*\s+\d{1,2},?\s+\d{4})\b/gi`. -/
def datePattern : PHIPattern :=
  { name := "DATE", description := "Date Formats"
    regex := seqL [.wordB,
      altL [
        seqL [repRange 1 2 digit, slashDash, repRange 1 2 digit, slashDash,
          rep 4 digit],
        seqL [rep 4 digit, slashDash, repRange 1 2 digit, slashDash,
          repRange 1 2 digit],
        seqL [altL [istr "Jan", istr "Feb", istr "Mar", istr "Apr",
            istr "May", istr "Jun", istr "Jul", istr "Aug", istr "Sep",
            istr "Oct", istr "Nov", istr "Dec"],
          .star letter, plus spaceCls, repRange 1 2 digit, .opt (chr ','),
          plus spaceCls, rep 4 digit]],
      .wordB]
    category := .TEMPORAL, severity := .MEDIUM
    replacement := "[DATE_REDACTED]" }

/-- `ADDRESS`: `/\b\d+\s+[A-Za-z\s]+(?:Street|St|Avenue|Ave|Road|Rd|Drive|Dr|Lane|Ln|Boulevard|Blvd|Way|Court|Ct)\b/gi`. -/
def addressPattern : PHIPattern :=
  { name := "ADDRESS", description := "Street Addresses"
    regex := seqL [.wordB, plus digit, plus spaceCls,
      plus (.cls fun c => c.isAlpha || jsSpace c),
      altL [istr "Street", istr "St", istr "Avenue", istr "Ave", istr "Road",
        istr "Rd", istr "Drive", istr "Dr", istr "Lane", istr "Ln",
        istr "Boulevard", istr "Blvd", istr "Way", istr "Court", istr "Ct"],
      .wordB]
    category := .GEOGRAPHIC, severity := .HIGH
    replacement := "[ADDRESS_REDACTED]" }

/-- `ZIP_CODE`: `/\b\d{5}(?:-\d{4})?\b/g`. -/
def zipPattern : PHIPattern :=
  { name := "ZIP_CODE", description := "ZIP Codes"
    regex := seqL [.wordB, rep 5 digit, .opt (.seq (chr '-') (rep 4 digit)),
      .wordB]
    category := .GEOGRAPHIC, severity := .MEDIUM
    replacement := "XXXXX" }

/-- `PRESCRIPTION_NUMBER`: `/\b(?:rx|prescription|script)[\s#:]*([A-Z0-9]{6,12})\b/gi`. -/
def prescriptionPattern : PHIPattern :=
  { name := "PRESCRIPTION_NUMBER", description := "Prescription Numbers"
    regex := seqL [.wordB, altL [istr "rx", istr "prescription",
      istr "script"], .star spaceHashColon, repRange 6 12 alnumI, .wordB]
    category := .HEALTHCARE_ID, severity := .HIGH
    replacement := "RX: [REDACTED]" }

/-- `LAB_ID`: `/\b(?:lab[\s-]?id|specimen[\s-]?id|test[\s-]?id)[\s:]*([A-Z0-9]{6,15})\b/gi`. -/
def labIdPattern : PHIPattern :=
  { name := "LAB_ID", description := "Laboratory Result IDs"
    regex := seqL [.wordB,
      altL [seqL [istr "lab", .opt spaceDash, istr "id"],
        seqL [istr "specimen", .opt spaceDash, istr "id"],
        seqL [istr "test", .opt spaceDash, istr "id"]],
      .star spaceColon, repRange 6 15 alnumI, .wordB]
    category := .HEALTHCARE_ID, severity := .HIGH
    replacement := "LAB_ID: [REDACTED]" }

/-- `ACCOUNT_NUMBER`: `/\b(?:account|acct)[\s#:]*([A-Z0-9]{6,15})\b/gi`. -/
def accountPattern : PHIPattern :=
  { name := "ACCOUNT_NUMBER", description := "Account Numbers"
    regex := seqL [.wordB, .alt (istr "account") (istr "acct"),
      .star spaceHashColon, repRange 6 15 alnumI, .wordB]
    category := .FINANCIAL, severity := .HIGH
    replacement := "ACCOUNT: [REDACTED]" }

/-- `CREDIT_CARD`: `/\b\d{4}[-\s]?\d{4}[-\s]?\d{4}[-\s]?\d{4}\b/g`. -/
def creditCardPattern : PHIPattern :=
  { name := "CREDIT_CARD", description := "Credit Card Numbers"
    regex := seqL [.wordB, rep 4 digit, .opt dashSpace, rep 4 digit,
      .opt dashSpace, rep 4 digit, .opt dashSpace, rep 4 digit, .wordB]
    category := .FINANCIAL, severity := .HIGH
    replacement := "XXXX-XXXX-XXXX-XXXX" }

/-- `IP_ADDRESS`: `/\b(?:\d{1,3}\.){3}\d{1,3}\b/g`. -/
def ipPattern : PHIPattern :=
  { name := "IP_ADDRESS", description := "IP Addresses"
    regex := seqL [.wordB, rep 3 (.seq (repRange 1 3 digit) (chr '.')),
      repRange 1 3 digit, .wordB]
    category := .DIRECT_IDENTIFIER, severity := .MEDIUM
    replacement := "XXX.XXX.XXX.XXX" }

/-- `URL`: `/https?:\/\/[^\s]+/gi` (no word-boundary assertions). -/
def urlPattern : PHIPattern :=
  { name := "URL", description := "Web URLs"
    regex := seqL [istr "http", .opt (ichr 's'), chr ':', chr '/', chr '/',
      plus (.cls fun c => !jsSpace c)]
    category := .DIRECT_IDENTIFIER, severity := .MEDIUM
    replacement := "[URL_REDACTED]" }

/-- `VIN`: `/\b[A-HJ-NPR-Z0-9]{17}\b/g`. -/
def vinPattern : PHIPattern :=
  { name := "VIN", description := "Vehicle Identification Numbers"
    regex := seqL [.wordB,
      rep 17 (.cls fun c => ('A' ≤ c && c ≤ 'H') || ('J' ≤ c && c ≤ 'N') ||
        c = 'P' || ('R' ≤ c && c ≤ 'Z') || c.isDigit),
      .wordB]
    category := .DIRECT_IDENTIFIER, severity := .MEDIUM
    replacement := "[VIN_REDACTED]" }

/-- `LICENSE_NUMBER`: `/\b(?:license|permit)[\s#:]*([A-Z0-9]{6,12})\b/gi`. -/
def licensePattern : PHIPattern :=
  { name := "LICENSE_NUMBER", description := "License Numbers"
    regex := seqL [.wordB, .alt (istr "license") (istr "permit"),
      .star spaceHashColon, repRange 6 12 alnumI, .wordB]
    category := .DIRECT_IDENTIFIER, severity := .MEDIUM
    replacement := "LICENSE: [REDACTED]" }

/-- `PHARMACY_ID`: `/\b(?:pharmacy|pharm)[\s-]?(?:id|number)[\s:]*([A-Z0-9]{6,12})\b/gi`. -/
def pharmacyPattern : PHIPattern :=
  { name := "PHARMACY_ID", description := "Pharmacy Identifiers"
    regex := seqL [.wordB, .alt (istr "pharmacy") (istr "pharm"),
      .opt spaceDash, .alt (istr "id") (istr "number"), .star spaceColon,
      repRange 6 12 alnumI, .wordB]
    category := .HEALTHCARE_ID, severity := .HIGH
    replacement := "PHARMACY_ID: [REDACTED]" }

/-- The built-in catalog `PHI_PATTERNS`, in source order. -/
def PHI_PATTERNS : List PHIPattern :=
  [ssnPattern, mrnPattern, patientIdPattern, phonePattern, emailPattern,
   personNamePattern, insuranceIdPattern, medicarePattern, deaPattern,
   npiPattern, datePattern, addressPattern, zipPattern, prescriptionPattern,
   labIdPattern, accountPattern, creditCardPattern, ipPattern, urlPattern,
   vinPattern, licensePattern, pharmacyPattern]

/-! ## Cipher utility (`src/encryption/hipaaEncryption.ts`)

`encrypt`/`decrypt` call into Node's AES-256-CBC; the engine functions below
take the encryption step as an explicit function parameter `enc`, since no
claim depends on ciphertext contents. `pbkdf2Sync` and `randomBytes` are
likewise external library primitives; `hash` is embedded with the random
bytes drawn by a call passed explicitly. -/

/-- The anchored test `/^\d{3}-\d{2}-\d{4}$/.test(data)` in `maskData`. -/
def isSSNShape (s : String) : Bool :=
  match s.data with
  | [a, b, c, h1, d, e, h2, f, g, i, j] =>
      a.isDigit && b.isDigit && c.isDigit && h1 = '-' && d.isDigit &&
      e.isDigit && h2 = '-' && f.isDigit && g.isDigit && i.isDigit && j.isDigit
  | _ => false

/-- The anchored test `/^\(\d{3}\)\s\d{3}-\d{4}$/.test(data)` in `maskData`. -/
def isPhoneShape (s : String) : Bool :=
  match s.data with
  | [p1, a, b, c, p2, sp, d, e, f, h, g, i, j, k] =>
      p1 = '(' && a.isDigit && b.isDigit && c.isDigit && p2 = ')' &&
      jsSpace sp && d.isDigit && e.isDigit && f.isDigit && h = '-' &&
      g.isDigit && i.isDigit && j.isDigit && k.isDigit
  | _ => false

/-- The anchored test `/^\d{5}(-\d{4})?$/.test(data)` in `maskData`. -/
def isZipShape (s : String) : Bool :=
  match s.data with
  | [a, b, c, d, e] =>
      a.isDigit && b.isDigit && c.isDigit && d.isDigit && e.isDigit
  | [a, b, c, d, e, h, f, g, i, j] =>
      a.isDigit && b.isDigit && c.isDigit && d.isDigit && e.isDigit &&
      h = '-' && f.isDigit && g.isDigit && i.isDigit && j.isDigit
  | _ => false

/-- `maskChar.repeat(n)`: the (possibly multi-character) string repeated
`n` times. -/
def repeatStr (s : String) (n : Nat) : String :=
  (List.replicate n s).foldl (· ++ ·) ""

/-- `HIPAAEncryption.maskData`. Nat subtraction renders the source's
`Math.max(0, data.length - 2)`. -/
def maskData (data : String) (maskChar : String := "*")
    (preserveLength : Bool := true) : String :=
  if !preserveLength then "[REDACTED]"
  else if isSSNShape data then "XXX-XX-XXXX"
  else if isPhoneShape data then "(XXX) XXX-XXXX"
  else if isZipShape data then
    (if data.length = 5 then "XXXXX" else "XXXXX-XXXX")
  else if data.length ≤ 2 then repeatStr maskChar data.length
  else
    String.mk (data.data.take 1) ++ repeatStr maskChar (data.length - 2) ++
      String.mk (data.data.drop (data.length - 1))

/-- `HIPAAEncryption.validateKeyStrength`: exactly 64 characters, all hex. -/
def validateKeyStrength (key : String) : Bool :=
  if key.length ≠ 64 then false
  else key.data.all fun c =>
    c.isDigit || ('a' ≤ c && c ≤ 'f') || ('A' ≤ c && c ≤ 'F')

/-- Modelled from the spec: Node's `pbkdf2Sync(data, salt, 10000, 64,
'sha512')` is an external deterministic key-derivation function ("iterated,
salted one-way digest"); its bit-level output is not modelled, only that it
is a function of `(data, salt)` and that distinct salts give distinct
digests (collisions of the real KDF are astronomically unlikely and are not
modelled). -/
def pbkdf2Model (data salt : String) : String :=
  data ++ ":" ++ salt

/-- `HIPAAEncryption.hash(data, salt?)`. `rand` is the value
`randomBytes(16).toString('hex')` drawn by this call — a fresh random string
per call. The source computes `salt || randomBytes(...)`, so an absent *or
empty* salt selects the random value. -/
def hash (data : String) (salt : Option String) (rand : String) : String :=
  let saltToUse := match salt with
    | some s => if s = "" then rand else s
    | none => rand
  pbkdf2Model data saltToUse

/-! ## Redaction engine (`src/utils/redactionEngine.ts`) -/

/-- The `severityOrder` map in the sort comparator of `redactText`. -/
def severityOrder : Severity → Nat
  | .HIGH => 0
  | .MEDIUM => 1
  | .LOW => 2

/-- Stable insertion (a new element goes before the first strictly-larger
rank and after equal ranks seen so far — combined with `sortPats` this gives
exactly the stable sort that V8's `Array.prototype.sort` performs with the
comparator `severityOrder[a.severity] - severityOrder[b.severity]`). -/
def insertPat (p : PHIPattern) : List PHIPattern → List PHIPattern
  | [] => [p]
  | q :: qs =>
      if severityOrder p.severity ≤ severityOrder q.severity then p :: q :: qs
      else q :: insertPat p qs

/-- Stable sort by severity (HIGH first), as performed by
`applicablePatterns.sort(...)` in `redactText`/`redactTextSync`. -/
def sortPats : List PHIPattern → List PHIPattern
  | [] => []
  | p :: ps => insertPat p (sortPats ps)

/-- The category-filter step of `getApplicablePatterns`: the filter applies
only when `categories` is present and non-empty. -/
def builtinApplicable (patterns : List PHIPattern)
    (options : RedactionOptions) : List PHIPattern :=
  match options.categories with
  | some cs =>
      if 0 < cs.length then
        patterns.filter fun p => cs.contains p.category
      else patterns
  | none => patterns

/-- `getApplicablePatterns`: category filter, then per-call custom patterns
appended (whenever `customPatterns` is present — in JavaScript even an empty
array is truthy). -/
def getApplicablePatterns (patterns : List PHIPattern)
    (options : RedactionOptions) : List PHIPattern :=
  let ps := builtinApplicable patterns options
  match options.customPatterns with
  | some cps => ps ++ cps
  | none => ps

/-- JavaScript truthiness of `options.preserveFormat` in
`options.preserveFormat ? maskData(...) : pattern.replacement`: `undefined`
and `false` are both falsy. -/
def preserveTruthy (o : RedactionOptions) : Bool :=
  o.preserveFormat = some true

/-- The mask character handed to `maskData`: `options.maskCharacter`, with
the default parameter `'*'` applying only when the field is absent
(`undefined`). -/
def maskCharD (o : RedactionOptions) : String :=
  o.maskCharacter.getD "*"

/-- JavaScript truthiness of `options.encryptionKey` (an empty string is
falsy). -/
def keyTruthy (o : RedactionOptions) : Bool :=
  match o.encryptionKey with
  | some k => !(k = "")
  | none => false

/-- One iteration of the `while ((match = pattern.regex.exec(...)))` loop:
find the next match from `lastIndex`, record it, splice in the replacement,
and set `lastIndex` to `match.index + replacement.length`. Returns `none`
when `exec` returns `null` (loop exit). -/
def redactLoopStep (p : PHIPattern) (o : RedactionOptions) (t : List Char)
    (li : Nat) : Option (MatchEntry × List Char × Nat) :=
  match findMatchFrom p.regex t li with
  | none => none
  | some (i, e) =>
      let matched := (t.drop i).take (e - i)
      let repl :=
        (if preserveTruthy o then maskData (String.mk matched) (maskCharD o)
         else p.replacement).data
      some ({ pattern := p.name, category := p.category, position := i,
              length := e - i, severity := p.severity },
            t.take i ++ repl ++ t.drop e,
            i + repl.length)

/-- The full per-pattern replacement loop, fueled (the source's `while` loop
does not terminate for a custom pattern whose regex matches the empty string
with an empty replacement; `none` models that the loop is still running
after `fuel` iterations). Returns the final text, the final `lastIndex`, and
the matches recorded by this pattern in order. -/
def redactPatLoop : Nat → PHIPattern → RedactionOptions → List Char → Nat →
    List MatchEntry → Option (List Char × Nat × List MatchEntry)
  | 0, _, _, _, _, _ => none
  | fuel + 1, p, o, t, li, acc =>
      match redactLoopStep p o t li with
      | none => some (t, li, acc)
      | some (m, t', li') => redactPatLoop fuel p o t' li' (acc ++ [m])

/-- `for (const pattern of sortedPatterns) { ... }`: run each pattern's loop
in order on the progressively redacted text, starting from `lastIndex = 0`,
accumulating matches. Per-pattern fuel `length + 1` suffices for every
pattern whose regex cannot match the empty string
(`redactPatLoop_terminates`). -/
def applyPatterns : List PHIPattern → RedactionOptions → List Char →
    Option (List Char × List MatchEntry)
  | [], _, t => some (t, [])
  | p :: ps, o, t => do
      let (t', _, ms) ← redactPatLoop (t.length + 1) p o t 0 []
      let (t'', ms') ← applyPatterns ps o t'
      some (t'', ms ++ ms')

/-- Whether `getApplicablePatterns` returned the engine's own `this.patterns`
array unchanged (no category filter applied and no custom patterns): in that
case the in-place `applicablePatterns.sort(...)` in `redactText` and
`redactTextSync` reorders the engine's shared catalog. -/
def aliasesCatalog (o : RedactionOptions) : Bool :=
  (match o.categories with | some cs => cs.isEmpty | none => true) &&
  o.customPatterns.isNone

/-- Core of `redactText`/`redactTextSync` over an engine whose
`this.patterns` is `patterns`: the redacted text and matches (`none` when
the source loop diverges), together with the engine's pattern list after the
call (reordered in place by the severity sort whenever the applicable list
aliased the catalog). -/
def redactCall (patterns : List PHIPattern) (text : String)
    (options : RedactionOptions) :
    Option (List Char × List MatchEntry) × List PHIPattern :=
  let sorted := sortPats (getApplicablePatterns patterns options)
  (applyPatterns sorted options text.data,
   if aliasesCatalog options then sorted else patterns)

/-- `redactTextSync` (private synchronous variant: never encrypts,
`encrypted: false`). -/
def redactTextSync (patterns : List PHIPattern) (text : String)
    (options : RedactionOptions) : Option RedactionResult :=
  (redactCall patterns text options).1.map fun (t, ms) =>
    { original := text, redacted := String.mk t, «matches» := ms,
      encrypted := false }

/-- `redactText`: the public plain-text redaction; when `options.encryptionKey`
is truthy the final text is passed to `this.encryption.encrypt`, modelled by
the parameter `enc`. -/
def redactText (enc : String → String → String) (patterns : List PHIPattern)
    (text : String) (options : RedactionOptions) : Option RedactionResult :=
  (redactCall patterns text options).1.map fun (t, ms) =>
    { original := text
      redacted := match options.encryptionKey with
        | some k => if k = "" then String.mk t else enc (String.mk t) k
        | none => String.mk t
      «matches» := ms
      encrypted := keyTruthy options }

/-! ## Structured data (`redactObject`, `redactJSON`, `redactXML`)

A parsed JSON document (and likewise the plain object tree produced by
`xml2js`) is a tree of strings, numbers, booleans, `null`, arrays and
objects; `JValue` embeds it (numbers as `Int` — their representation is
irrelevant here, `redactObject` passes every non-string leaf through
untouched). `JSON.parse` and the `xml2js` parser/builder are external
library functions and are taken as parameters. -/

/-- A JavaScript value as produced by `JSON.parse` / `xml2js`. -/
inductive JValue where
  | str (s : String)
  | num (n : Int)
  | bool (b : Bool)
  | null
  | arr (elems : List JValue)
  | obj (fields : List (String × JValue))
deriving Repr

mutual

/-- `redactObject`: recursive walk. Strings are redacted with
`redactTextSync` under `{ ...options, encryptionKey: undefined }`; arrays and
objects are rebuilt elementwise in order (object keys untouched); any other
value falls through unchanged. -/
def redactObject (patterns : List PHIPattern) :
    JValue → RedactionOptions → Option (JValue × List MatchEntry)
  | .str s, o =>
      (redactTextSync patterns s { o with encryptionKey := none }).map
        fun r => (.str r.redacted, r.«matches»)
  | .arr xs, o =>
      (redactObjList patterns xs o).map fun (ys, ms) => (.arr ys, ms)
  | .obj fs, o =>
      (redactObjFields patterns fs o).map fun (gs, ms) => (.obj gs, ms)
  | v, _ => some (v, [])

/-- The `for (const item of obj)` loop over an array in `redactObject`. -/
def redactObjList (patterns : List PHIPattern) :
    List JValue → RedactionOptions →
    Option (List JValue × List MatchEntry)
  | [], _ => some ([], [])
  | x :: xs, o => do
      let (y, m1) ← redactObject patterns x o
      let (ys, m2) ← redactObjList patterns xs o
      some (y :: ys, m1 ++ m2)

/-- The `for (const [key, value] of Object.entries(obj))` loop in
`redactObject` (insertion order preserved). -/
def redactObjFields (patterns : List PHIPattern) :
    List (String × JValue) → RedactionOptions →
    Option (List (String × JValue) × List MatchEntry)
  | [], _ => some ([], [])
  | (k, v) :: fs, o => do
      let (v', m1) ← redactObject patterns v o
      let (fs', m2) ← redactObjFields patterns fs o
      some ((k, v') :: fs', m1 ++ m2)

end

/-- Minimal JSON escaping for string values. -/
def jsonEscape (s : String) : String :=
  s.data.foldl (fun acc c =>
    acc ++ (if c = '"' then "\\\"" else if c = '\\' then "\\\\"
            else String.mk [c])) ""

mutual

/-- `JSON.stringify` of the redacted tree. (The source passes `null, 2` for
2-space pretty-printing; this serializer is compact — no claim in this
development depends on the serialized text, only on the tree.) -/
def jsonStringify : JValue → String
  | .str s => "\"" ++ jsonEscape s ++ "\""
  | .num n => toString n
  | .bool b => if b then "true" else "false"
  | .null => "null"
  | .arr xs => "[" ++ jsonStringifyList xs ++ "]"
  | .obj fs => "\x7b" ++ jsonStringifyFields fs ++ "\x7d"

/-- Comma-separated serialization of array elements. -/
def jsonStringifyList : List JValue → String
  | [] => ""
  | [x] => jsonStringify x
  | x :: xs => jsonStringify x ++ "," ++ jsonStringifyList xs

/-- Comma-separated serialization of object members. -/
def jsonStringifyFields : List (String × JValue) → String
  | [] => ""
  | [(k, v)] => "\"" ++ jsonEscape k ++ "\":" ++ jsonStringify v
  | (k, v) :: fs =>
      "\"" ++ jsonEscape k ++ "\":" ++ jsonStringify v ++ "," ++
        jsonStringifyFields fs

end

/-- `DataFormat.type` from `src/types/phi.ts`. -/
inductive FormatType where
  | JSON | XML | TEXT
deriving DecidableEq, Repr

/-- `input.trim()`: strip leading and trailing whitespace. -/
def jsTrim (s : String) : String :=
  String.mk (((s.data.dropWhile jsSpace).reverse.dropWhile jsSpace).reverse)

/-- `trimmed.startsWith(c)` for a single-character prefix. -/
def startsWithChar (s : String) (c : Char) : Bool :=
  match s.data with
  | [] => false
  | d :: _ => d = c

/-- `detectFormat`: trimmed input starting with a brace or bracket is JSON
when `JSON.parse(trimmed)` succeeds (on failure fall through); input starting
with `<` and containing `>` is XML; otherwise TEXT. -/
def detectFormat (parseJSON : String → Option JValue) (input : String) :
    FormatType :=
  let trimmed := jsTrim input
  if (startsWithChar trimmed '\x7b' || startsWithChar trimmed '[') &&
      (parseJSON trimmed).isSome then .JSON
  else if startsWithChar trimmed '<' && trimmed.data.contains '>' then .XML
  else .TEXT

/-- `redactJSON`: parse, walk, re-serialize, optionally encrypt; the `catch`
branch (parse failure) falls back to plain-text redaction of the whole
input. -/
def redactJSON (enc : String → String → String)
    (parseJSON : String → Option JValue) (patterns : List PHIPattern)
    (jsonString : String) (options : RedactionOptions) :
    Option RedactionResult :=
  match parseJSON jsonString with
  | some t =>
      (redactObject patterns t options).map fun (v, ms) =>
        let redactedString := jsonStringify v
        { original := jsonString
          redacted := match options.encryptionKey with
            | some k => if k = "" then redactedString else enc redactedString k
            | none => redactedString
          «matches» := ms
          encrypted := keyTruthy options }
  | none => redactText enc patterns jsonString options

/-- `redactXML`: like `redactJSON` but through the `xml2js` parser and
builder (taken as parameters); the `catch` branch falls back to plain-text
redaction. -/
def redactXML (enc : String → String → String)
    (parseXML : String → Option JValue) (buildXML : JValue → String)
    (patterns : List PHIPattern) (xmlString : String)
    (options : RedactionOptions) : Option RedactionResult :=
  match parseXML xmlString with
  | some t =>
      (redactObject patterns t options).map fun (v, ms) =>
        let redactedString := buildXML v
        { original := xmlString
          redacted := match options.encryptionKey with
            | some k => if k = "" then redactedString else enc redactedString k
            | none => redactedString
          «matches» := ms
          encrypted := keyTruthy options }
  | none => redactText enc patterns xmlString options

/-- `redactData`: dispatch on the detected format. -/
def redactData (enc : String → String → String)
    (parseJSON : String → Option JValue) (parseXML : String → Option JValue)
    (buildXML : JValue → String) (patterns : List PHIPattern)
    (input : String) (options : RedactionOptions) : Option RedactionResult :=
  match detectFormat parseJSON input with
  | .JSON => redactJSON enc parseJSON patterns input options
  | .XML => redactXML enc parseXML buildXML patterns input options
  | .TEXT => redactText enc patterns input options

/-! ## MCP tool handler (`src/index.ts`) -/

/-- `handleRedactHealthcareData`: rejects missing/empty `data` (JavaScript
`!data`), then rejects a *truthy* invalid `encryptionKey` before calling
`redactData`. The serialized response wrapper and summary counts are not
modelled; the `Except.ok` payload is the engine result the response is built
from. The outer `Option` is `none` only on the diverging-loop path of the
engine. -/
def handleRedactHealthcareData (enc : String → String → String)
    (parseJSON : String → Option JValue) (parseXML : String → Option JValue)
    (buildXML : JValue → String) (patterns : List PHIPattern)
    (data : String) (options : RedactionOptions) :
    Option (Except String RedactionResult) :=
  if data = "" then
    some (.error "Data parameter is required and must be a string")
  else
    let keyInvalid := match options.encryptionKey with
      | some k => !(k = "") && !validateKeyStrength k
      | none => false
    if keyInvalid then
      some (.error "Invalid encryption key. Must be a 64-character hex string.")
    else
      (redactData enc parseJSON parseXML buildXML patterns data options).map
        .ok

/-! ## Auxiliary predicates for the theorems -/

/-- The characters of `s` from `pos`, for `len` characters (the literal text
of a recorded match span, `text.substring(position, position + length)`). -/
def sliceStr (s : String) (pos len : Nat) : String :=
  String.mk ((s.data.drop pos).take len)

/-- Substring containment (decidable, brute force). -/
def containsSubstr (needle hay : String) : Bool :=
  (List.range (hay.length + 1)).any fun i =>
    needle.data.isPrefixOf (hay.data.drop i)

mutual

/-- Structure preservation between an input tree and its redacted output:
same constructor everywhere, arrays of the same length, objects with the
same keys in the same order, and non-string leaves (numbers, booleans,
`null`) strictly equal; only string leaves may differ. -/
def structPreserved : JValue → JValue → Bool
  | .str _, .str _ => true
  | .num a, .num b => a == b
  | .bool a, .bool b => a == b
  | .null, .null => true
  | .arr xs, .arr ys => structPreservedList xs ys
  | .obj fs, .obj gs => structPreservedFields fs gs
  | _, _ => false

/-- Pointwise structure preservation of array elements. -/
def structPreservedList : List JValue → List JValue → Bool
  | [], [] => true
  | x :: xs, y :: ys => structPreserved x y && structPreservedList xs ys
  | _, _ => false

/-- Pointwise structure preservation of object members (keys equal and in
the same order). -/
def structPreservedFields :
    List (String × JValue) → List (String × JValue) → Bool
  | [], [] => true
  | (k, v) :: fs, (k2, v2) :: gs =>
      k == k2 && structPreserved v v2 && structPreservedFields fs gs
  | _, _ => false

end

/-! ## Matcher lemmas -/

/-- Every end position returned by the matcher is at or after the start. -/
theorem accepts_mem_ge (fuel : Nat) :
    ∀ (re : RE) (s : List Char) (pos e : Nat),
      e ∈ accepts fuel re s pos → pos ≤ e := by
  induction fuel with
  | zero => intro re s pos e h; simp [accepts] at h
  | succ n ih =>
    intro re s pos e h
    cases re with
    | eps => simp [accepts] at h; omega
    | wordB =>
      simp only [accepts] at h
      split at h <;> simp at h
      omega
    | cls p =>
      simp only [accepts] at h
      cases hg : s.get? pos with
      | none => rw [hg] at h; simp at h
      | some c =>
        rw [hg] at h
        split at h <;> simp at h
        omega
    | seq a b =>
      simp only [accepts, List.mem_flatMap] at h
      obtain ⟨m, hm, he⟩ := h
      exact le_trans (ih a s pos m hm) (ih b s m e he)
    | alt a b =>
      simp only [accepts, List.mem_append] at h
      cases h with
      | inl h => exact ih a s pos e h
      | inr h => exact ih b s pos e h
    | opt b =>
      simp only [accepts, List.mem_append, List.mem_singleton] at h
      cases h with
      | inl h => exact ih b s pos e h
      | inr h => omega
    | star b =>
      simp only [accepts, List.mem_append, List.mem_flatMap,
        List.mem_filter, List.mem_singleton] at h
      cases h with
      | inl h =>
        obtain ⟨m, ⟨_, hlt⟩, he⟩ := h
        have := ih (.star b) s m e he
        have hlt2 : pos < m := by simpa using hlt
        omega
      | inr h => omega

/-- End positions stay within the string when the start does. -/
theorem accepts_mem_le (fuel : Nat) :
    ∀ (re : RE) (s : List Char) (pos e : Nat), pos ≤ s.length →
      e ∈ accepts fuel re s pos → e ≤ s.length := by
  induction fuel with
  | zero => intro re s pos e _ h; simp [accepts] at h
  | succ n ih =>
    intro re s pos e hpos h
    cases re with
    | eps => simp [accepts] at h; omega
    | wordB =>
      simp only [accepts] at h
      split at h <;> simp at h
      omega
    | cls p =>
      simp only [accepts] at h
      cases hg : s.get? pos with
      | none => rw [hg] at h; simp at h
      | some c =>
        rw [hg] at h
        split at h <;> simp at h
        have : pos < s.length := List.get?_eq_some.mp hg |>.1
        omega
    | seq a b =>
      simp only [accepts, List.mem_flatMap] at h
      obtain ⟨m, hm, he⟩ := h
      exact ih b s m e (ih a s pos m hpos hm) he
    | alt a b =>
      simp only [accepts, List.mem_append] at h
      cases h with
      | inl h => exact ih a s pos e hpos h
      | inr h => exact ih b s pos e hpos h
    | opt b =>
      simp only [accepts, List.mem_append, List.mem_singleton] at h
      cases h with
      | inl h => exact ih b s pos e hpos h
      | inr h => omega
    | star b =>
      simp only [accepts, List.mem_append, List.mem_flatMap,
        List.mem_filter, List.mem_singleton] at h
      cases h with
      | inl h =>
        obtain ⟨m, ⟨hm, _⟩, he⟩ := h
        exact ih (.star b) s m e (ih b s pos m hpos hm) he
      | inr h => omega

/-- A non-nullable regex only matches non-empty text: the end position is
strictly after the start. -/
theorem accepts_nonNullable (fuel : Nat) :
    ∀ (re : RE) (s : List Char) (pos e : Nat), re.nullable = false →
      e ∈ accepts fuel re s pos → pos < e := by
  induction fuel with
  | zero => intro re s pos e _ h; simp [accepts] at h
  | succ n ih =>
    intro re s pos e hnul h
    cases re with
    | eps => simp [RE.nullable] at hnul
    | wordB => simp [RE.nullable] at hnul
    | cls p =>
      simp only [accepts] at h
      cases hg : s.get? pos with
      | none => rw [hg] at h; simp at h
      | some c =>
        rw [hg] at h
        split at h <;> simp at h
        omega
    | seq a b =>
      simp only [RE.nullable, Bool.and_eq_false_iff] at hnul
      simp only [accepts, List.mem_flatMap] at h
      obtain ⟨m, hm, he⟩ := h
      cases hnul with
      | inl ha =>
        have h1 := ih a s pos m ha hm
        have h2 := accepts_mem_ge n b s m e he
        omega
      | inr hb =>
        have h1 := accepts_mem_ge n a s pos m hm
        have h2 := ih b s m e hb he
        omega
    | alt a b =>
      simp only [RE.nullable, Bool.or_eq_false_iff] at hnul
      simp only [accepts, List.mem_append] at h
      cases h with
      | inl h => exact ih a s pos e hnul.1 h
      | inr h => exact ih b s pos e hnul.2 h
    | opt b => simp [RE.nullable] at hnul
    | star b => simp [RE.nullable] at hnul

/-- Characterization of a successful forward scan: the match index lies
between the scan start and the end of the string, and the end position is a
matcher result at that index. -/
theorem findMatchFromAux_some (re : RE) (s : List Char) (fuel : Nat) :
    ∀ (i0 i e : Nat), findMatchFromAux re s fuel i0 = some (i, e) →
      i0 ≤ i ∧ i ≤ s.length ∧ e ∈ acceptsTop re s i := by
  induction fuel with
  | zero => intro i0 i e h; simp [findMatchFromAux] at h
  | succ n ih =>
    intro i0 i e h
    simp only [findMatchFromAux] at h
    split at h
    case isTrue hle =>
      cases hacc : acceptsTop re s i0 with
      | nil =>
        rw [hacc] at h
        obtain ⟨h1, h2, h3⟩ := ih (i0 + 1) i e h
        exact ⟨by omega, h2, h3⟩
      | cons e0 rest =>
        rw [hacc] at h
        simp at h
        obtain ⟨hi, he⟩ := h
        subst hi; subst he
        exact ⟨le_refl _, hle, by rw [hacc]; exact List.mem_cons_self _ _⟩
    case isFalse => simp at h

/-- `findMatchFrom` version of `findMatchFromAux_some`. -/
theorem findMatchFrom_some (re : RE) (s : List Char) (i0 i e : Nat)
    (h : findMatchFrom re s i0 = some (i, e)) :
    i0 ≤ i ∧ i ≤ s.length ∧ e ∈ acceptsTop re s i :=
  findMatchFromAux_some re s (s.length + 1 - i0) i0 i e h

/-! ## Replacement-loop lemmas -/

/-- One successful loop iteration of a pattern with a non-nullable regex
keeps `lastIndex` within the new text and strictly shrinks the unscanned
region `t.length - lastIndex`. -/
theorem redactLoopStep_progress (p : PHIPattern) (o : RedactionOptions)
    (t : List Char) (li : Nat) (m : MatchEntry) (t2 : List Char) (li2 : Nat)
    (hnul : p.regex.nullable = false)
    (h : redactLoopStep p o t li = some (m, t2, li2)) :
    li2 ≤ t2.length ∧ t2.length - li2 < t.length - li := by
  unfold redactLoopStep at h
  cases hf : findMatchFrom p.regex t li with
  | none => rw [hf] at h; simp at h
  | some ie =>
    obtain ⟨i, e⟩ := ie
    rw [hf] at h
    simp only [Option.some.injEq, Prod.mk.injEq] at h
    obtain ⟨-, ht2, hli2⟩ := h
    obtain ⟨h1, h2, h3⟩ := findMatchFrom_some _ _ _ _ _ hf
    have hie : i < e := accepts_nonNullable _ _ _ _ _ hnul h3
    have hele : e ≤ t.length := accepts_mem_le _ _ _ _ _ h2 h3
    subst ht2; subst hli2
    simp only [List.length_append, List.length_take, List.length_drop]
    omega

/-- The per-pattern `while` loop terminates — with fuel to spare — whenever
the pattern's regex cannot match the empty string. -/
theorem redactPatLoop_terminates :
    ∀ (fuel : Nat) (p : PHIPattern) (o : RedactionOptions) (t : List Char)
      (li : Nat) (acc : List MatchEntry), p.regex.nullable = false →
      t.length - li < fuel → (redactPatLoop fuel p o t li acc).isSome := by
  intro fuel
  induction fuel with
  | zero => intro p o t li acc _ hlt; omega
  | succ n ih =>
    intro p o t li acc hnul hlt
    unfold redactPatLoop
    cases hs : redactLoopStep p o t li with
    | none => simp
    | some x =>
      obtain ⟨m, t2, li2⟩ := x
      obtain ⟨h1, h2⟩ := redactLoopStep_progress p o t li m t2 li2 hnul hs
      exact ih p o t2 li2 (acc ++ [m]) hnul (by omega)

/-- When the per-pattern loop returns, its pattern is exhausted: `exec` finds
no further match in the final text from the final `lastIndex`. -/
theorem redactPatLoop_done :
    ∀ (fuel : Nat) (p : PHIPattern) (o : RedactionOptions) (t : List Char)
      (li : Nat) (acc : List MatchEntry) (t2 : List Char) (li2 : Nat)
      (ms : List MatchEntry),
      redactPatLoop fuel p o t li acc = some (t2, li2, ms) →
      findMatchFrom p.regex t2 li2 = none := by
  intro fuel
  induction fuel with
  | zero => intro p o t li acc t2 li2 ms h; simp [redactPatLoop] at h
  | succ n ih =>
    intro p o t li acc t2 li2 ms h
    unfold redactPatLoop at h
    cases hs : redactLoopStep p o t li with
    | none =>
      rw [hs] at h
      simp only [Option.some.injEq, Prod.mk.injEq] at h
      obtain ⟨ht, hli, -⟩ := h
      subst ht; subst hli
      unfold redactLoopStep at hs
      cases hf : findMatchFrom p.regex t li with
      | none => rfl
      | some ie => rw [hf] at hs; rcases ie with ⟨i, e⟩; simp at hs
    | some x =>
      obtain ⟨m, tm, lim⟩ := x
      rw [hs] at h
      exact ih p o tm lim (acc ++ [m]) t2 li2 ms h

/-! ## Stability of the severity sort -/

/-- `insertPat` and severity-rank filtering commute: the inserted pattern
lands in front of the equally-ranked elements already in the list. -/
theorem insertPat_filter (p : PHIPattern) (l : List PHIPattern) (k : Nat) :
    (insertPat p l).filter (fun q => severityOrder q.severity == k) =
      if severityOrder p.severity == k then
        p :: l.filter (fun q => severityOrder q.severity == k)
      else l.filter (fun q => severityOrder q.severity == k) := by
  induction l with
  | nil =>
    by_cases hp : severityOrder p.severity == k <;>
      simp [insertPat, List.filter, hp]
  | cons q qs ih =>
    unfold insertPat
    split
    case isTrue hle =>
      by_cases hp : severityOrder p.severity == k <;>
        simp [List.filter_cons, hp]
    case isFalse hgt =>
      by_cases hp : severityOrder p.severity == k <;>
        by_cases hq : severityOrder q.severity == k <;>
          simp_all [List.filter_cons, hp, hq]

/-- The severity sort is stable: for each severity rank, it preserves the
subsequence of patterns having that rank. -/
theorem sortPats_stable (ps : List PHIPattern) (k : Nat) :
    (sortPats ps).filter (fun q => severityOrder q.severity == k) =
      ps.filter (fun q => severityOrder q.severity == k) := by
  induction ps with
  | nil => rfl
  | cons p ps ih =>
    unfold sortPats
    rw [insertPat_filter, List.filter_cons]
    by_cases hp : severityOrder p.severity == k <;> simp [hp, ih]

/-! ## Structure preservation of `redactObject` -/

mutual

/-- `redactObject` preserves tree structure: only string leaves change. -/
theorem redactObject_pres (pats : List PHIPattern) :
    ∀ (t : JValue) (o : RedactionOptions) (v : JValue) (ms : List MatchEntry),
      redactObject pats t o = some (v, ms) → structPreserved t v = true
  | .str s, o, v, ms, h => by
      simp only [redactObject] at h
      cases hr : redactTextSync pats s { o with encryptionKey := none } with
      | none => rw [hr] at h; simp at h
      | some r =>
        rw [hr] at h
        simp only [Option.map_some', Option.some.injEq, Prod.mk.injEq] at h
        obtain ⟨hv, -⟩ := h
        subst hv
        rfl
  | .num n, o, v, ms, h => by
      simp only [redactObject, Option.some.injEq, Prod.mk.injEq] at h
      obtain ⟨hv, -⟩ := h; subst hv; simp [structPreserved]
  | .bool b, o, v, ms, h => by
      simp only [redactObject, Option.some.injEq, Prod.mk.injEq] at h
      obtain ⟨hv, -⟩ := h; subst hv; simp [structPreserved]
  | .null, o, v, ms, h => by
      simp only [redactObject, Option.some.injEq, Prod.mk.injEq] at h
      obtain ⟨hv, -⟩ := h; subst hv; rfl
  | .arr xs, o, v, ms, h => by
      simp only [redactObject] at h
      cases hr : redactObjList pats xs o with
      | none => rw [hr] at h; simp at h
      | some pr =>
        obtain ⟨ys, ms2⟩ := pr
        rw [hr] at h
        simp only [Option.map_some', Option.some.injEq, Prod.mk.injEq] at h
        obtain ⟨hv, -⟩ := h
        subst hv
        have hxs := redactObjList_pres pats xs o ys ms2 hr
        simpa [structPreserved] using hxs
  | .obj fs, o, v, ms, h => by
      simp only [redactObject] at h
      cases hr : redactObjFields pats fs o with
      | none => rw [hr] at h; simp at h
      | some pr =>
        obtain ⟨gs, ms2⟩ := pr
        rw [hr] at h
        simp only [Option.map_some', Option.some.injEq, Prod.mk.injEq] at h
        obtain ⟨hv, -⟩ := h
        subst hv
        have hfs := redactObjFields_pres pats fs o gs ms2 hr
        simpa [structPreserved] using hfs

/-- Elementwise structure preservation over arrays. -/
theorem redactObjList_pres (pats : List PHIPattern) :
    ∀ (xs : List JValue) (o : RedactionOptions) (ys : List JValue)
      (ms : List MatchEntry),
      redactObjList pats xs o = some (ys, ms) →
      structPreservedList xs ys = true
  | [], o, ys, ms, h => by
      simp only [redactObjList, Option.some.injEq, Prod.mk.injEq] at h
      obtain ⟨hv, -⟩ := h; subst hv; rfl
  | x :: xs, o, ys, ms, h => by
      simp only [redactObjList] at h
      cases h1 : redactObject pats x o with
      | none => rw [h1] at h; simp at h
      | some p1 =>
        obtain ⟨y, m1⟩ := p1
        rw [h1] at h
        cases h2 : redactObjList pats xs o with
        | none => rw [h2] at h; simp at h
        | some p2 =>
          obtain ⟨ys2, m2⟩ := p2
          rw [h2] at h
          simp at h
          obtain ⟨hv, -⟩ := h
          subst hv
          have hx := redactObject_pres pats x o y m1 h1
          have hxs := redactObjList_pres pats xs o ys2 m2 h2
          simp [structPreservedList, hx, hxs]

/-- Elementwise structure preservation over object members. -/
theorem redactObjFields_pres (pats : List PHIPattern) :
    ∀ (fs : List (String × JValue)) (o : RedactionOptions)
      (gs : List (String × JValue)) (ms : List MatchEntry),
      redactObjFields pats fs o = some (gs, ms) →
      structPreservedFields fs gs = true
  | [], o, gs, ms, h => by
      simp only [redactObjFields, Option.some.injEq, Prod.mk.injEq] at h
      obtain ⟨hv, -⟩ := h; subst hv; rfl
  | (k, x) :: fs, o, gs, ms, h => by
      simp only [redactObjFields] at h
      cases h1 : redactObject pats x o with
      | none => rw [h1] at h; simp at h
      | some p1 =>
        obtain ⟨y, m1⟩ := p1
        rw [h1] at h
        cases h2 : redactObjFields pats fs o with
        | none => rw [h2] at h; simp at h
        | some p2 =>
          obtain ⟨gs2, m2⟩ := p2
          rw [h2] at h
          simp at h
          obtain ⟨hv, -⟩ := h
          subst hv
          have hx := redactObject_pres pats x o y m1 h1
          have hfs := redactObjFields_pres pats fs o gs2 m2 h2
          simp [structPreservedFields, hx, hfs]

end

/-! ## Claim theorems

Result records are written with anonymous constructors:
`RedactionResult` fields in order are `original`, `redacted`, `matches`,
`encrypted`; `MatchEntry` fields are `pattern`, `category`, `position`,
`length`, `severity`. -/

/-- Claim C1 (counterexample). With `preserveFormat = false`, the input
`"123-45-6789 a123-45-6789b"` records exactly one SSN match whose literal
text is `"123-45-6789"`, yet the redacted output still contains that literal:
the second occurrence sits between word characters, so the `\b` assertions
of the SSN regex reject it there and it survives verbatim. This refutes the
claim that no substring equal to a recorded span survives in `redacted`. -/
theorem C1_counterexample :
    redactText (fun s _ => s) PHI_PATTERNS "123-45-6789 a123-45-6789b"
        { preserveFormat := some false } =
      some ⟨"123-45-6789 a123-45-6789b", "XXX-XX-XXXX a123-45-6789b",
        [⟨"SSN", .DIRECT_IDENTIFIER, 0, 11, .HIGH⟩], false⟩ ∧
    sliceStr "123-45-6789 a123-45-6789b" 0 11 = "123-45-6789" ∧
    containsSubstr "123-45-6789" "XXX-XX-XXXX a123-45-6789b" = true :=
  ⟨by decide, by decide, by decide⟩

/-- Claim C1 (amended): every recorded span is substituted at its own
occurrence when it is detected, and each pattern's replacement loop runs to
exhaustion — when it finishes, `exec` finds no further match of that pattern
in the final text at or beyond the final resume position. The redacted
output may still contain a substring equal to a recorded span when another
occurrence of the same text does not itself match the pattern (for example
for lack of a word boundary). -/
theorem C1_amended (fuel : Nat) (p : PHIPattern) (o : RedactionOptions)
    (t : List Char) (li : Nat) (acc : List MatchEntry) (t2 : List Char)
    (li2 : Nat) (ms : List MatchEntry)
    (h : redactPatLoop fuel p o t li acc = some (t2, li2, ms)) :
    findMatchFrom p.regex t2 li2 = none :=
  redactPatLoop_done fuel p o t li acc t2 li2 ms h

/-- Claim C1 (amended, witness): after the SSN pass over the C1 input, the
SSN pattern is exhausted. -/
theorem C1_amended_witness :
    findMatchFrom ssnPattern.regex "XXX-XX-XXXX a123-45-6789b".data 11 =
      none :=
  C1_amended 26 ssnPattern { preserveFormat := some false }
    "123-45-6789 a123-45-6789b".data 0 []
    "XXX-XX-XXXX a123-45-6789b".data 11
    [⟨"SSN", .DIRECT_IDENTIFIER, 0, 11, .HIGH⟩] (by decide)

/-- Claim C2 (code bug): with `options` not specifying `preserveFormat`, the
engine takes the literal-token branch — `options.preserveFormat ?` is falsy
for `undefined` — although the tool schema in `src/index.ts` documents
`preserveFormat: default true`. For `"a@b.co"` the default call yields the
literal token `"[EMAIL_REDACTED]"`, while the documented default behaviour
(`preserveFormat = true`) yields the shape-preserving mask `"a****o"`. -/
theorem C2_code_bug :
    redactTextSync PHI_PATTERNS "a@b.co" {} =
      some ⟨"a@b.co", "[EMAIL_REDACTED]",
        [⟨"EMAIL", .CONTACT, 0, 6, .HIGH⟩], false⟩ ∧
    redactTextSync PHI_PATTERNS "a@b.co" { preserveFormat := some true } =
      some ⟨"a@b.co", "a****o",
        [⟨"EMAIL", .CONTACT, 0, 6, .HIGH⟩], false⟩ ∧
    maskData "a@b.co" "*" = "a****o" :=
  ⟨by decide, by decide, by decide⟩

/-- Claim C3 (counterexample). `encryptionKey = ""` is present but not a
64-character hex string, yet the handler raises no error at all: the guard
`options.encryptionKey && !validate(...)` skips falsy keys, redaction
proceeds (a match is computed) and the result is returned unencrypted. -/
theorem C3_counterexample :
    handleRedactHealthcareData (fun s _ => s) (fun _ => none) (fun _ => none)
        (fun _ => "") PHI_PATTERNS "123-45-6789"
        { encryptionKey := some "" } =
      some (Except.ok ⟨"123-45-6789", "XXX-XX-XXXX",
        [⟨"SSN", .DIRECT_IDENTIFIER, 0, 11, .HIGH⟩], false⟩) := by
  rfl

/-- Claim C3 (amended): for every non-empty input and every options whose
`encryptionKey` is present, **non-empty** and not a valid 64-hex-character
key, the handler fails with the validation error before `redactData` is
invoked — no match is computed and no part of the input is touched (the
error branch returns without calling the engine). -/
theorem C3_amended (enc : String → String → String)
    (pJ pX : String → Option JValue) (bX : JValue → String)
    (pats : List PHIPattern) (data : String) (o : RedactionOptions)
    (k : String) (hd : data ≠ "") (hk : o.encryptionKey = some k)
    (hne : k ≠ "") (hval : validateKeyStrength k = false) :
    handleRedactHealthcareData enc pJ pX bX pats data o =
      some (Except.error
        "Invalid encryption key. Must be a 64-character hex string.") := by
  unfold handleRedactHealthcareData
  simp [hd, hk, hne, hval]

/-- Claim C3 (amended, witness): the spec's Scenario C key `"nothex"`. -/
theorem C3_amended_witness :
    handleRedactHealthcareData (fun s _ => s) (fun _ => none) (fun _ => none)
        (fun _ => "") PHI_PATTERNS "Patient SSN 123-45-6789"
        { encryptionKey := some "nothex" } =
      some (Except.error
        "Invalid encryption key. Must be a 64-character hex string.") :=
  C3_amended (fun s _ => s) (fun _ => none) (fun _ => none) (fun _ => "")
    PHI_PATTERNS "Patient SSN 123-45-6789" { encryptionKey := some "nothex" }
    "nothex" (by decide) rfl (by decide) (by decide)

/-- Claim C4: when the JSON (resp. XML) parse of the input fails, `redactJSON`
(resp. `redactXML`) raises nothing and returns exactly the plain-text
redaction of the whole input string. -/
theorem C4_parse_failure_fallback (enc : String → String → String)
    (pJ pX : String → Option JValue) (bX : JValue → String)
    (pats : List PHIPattern) (s : String) (o : RedactionOptions)
    (hJ : pJ s = none) (hX : pX s = none) :
    redactJSON enc pJ pats s o = redactText enc pats s o ∧
    redactXML enc pX bX pats s o = redactText enc pats s o := by
  constructor
  · unfold redactJSON; rw [hJ]
  · unfold redactXML; rw [hX]

/-- Claim C4 (witness): the spec's Scenario D input `"\x7bnot json"` with
parsers that reject it. -/
theorem C4_witness :
    redactJSON (fun s _ => s) (fun _ => none) PHI_PATTERNS "\x7bnot json"
        {} =
      redactText (fun s _ => s) PHI_PATTERNS "\x7bnot json" {} ∧
    redactXML (fun s _ => s) (fun _ => none) (fun _ => "") PHI_PATTERNS
        "\x7bnot json" {} =
      redactText (fun s _ => s) PHI_PATTERNS "\x7bnot json" {} :=
  C4_parse_failure_fallback (fun s _ => s) (fun _ => none) (fun _ => none)
    (fun _ => "") PHI_PATTERNS "\x7bnot json" {} rfl rfl

/-- Claim C5 (code bug): a `redactText` call with default options sorts the
engine's shared `this.patterns` array **in place** (`getApplicablePatterns`
returns the array itself when no category filter applies and no custom
patterns are given, and `Array.prototype.sort` mutates its receiver). After
one call on any input the catalog is permuted into severity order — `DATE`
and the other MEDIUM patterns move behind all the HIGH patterns —
contradicting the documented read-only catalog. -/
theorem C5_code_bug_eval :
    (redactCall PHI_PATTERNS "" {}).2.map (fun p => p.name) =
      ["SSN", "MRN", "PATIENT_ID", "PHONE", "EMAIL", "PERSON_NAME",
       "INSURANCE_ID", "MEDICARE", "DEA_NUMBER", "NPI", "ADDRESS",
       "PRESCRIPTION_NUMBER", "LAB_ID", "ACCOUNT_NUMBER", "CREDIT_CARD",
       "PHARMACY_ID", "DATE", "ZIP_CODE", "IP_ADDRESS", "URL", "VIN",
       "LICENSE_NUMBER"] ∧
    PHI_PATTERNS.map (fun p => p.name) =
      ["SSN", "MRN", "PATIENT_ID", "PHONE", "EMAIL", "PERSON_NAME",
       "INSURANCE_ID", "MEDICARE", "DEA_NUMBER", "NPI", "DATE", "ADDRESS",
       "ZIP_CODE", "PRESCRIPTION_NUMBER", "LAB_ID", "ACCOUNT_NUMBER",
       "CREDIT_CARD", "IP_ADDRESS", "URL", "VIN", "LICENSE_NUMBER",
       "PHARMACY_ID"] ∧
    (redactCall PHI_PATTERNS "" {}).2.map (fun p => p.name) ≠
      PHI_PATTERNS.map (fun p => p.name) :=
  ⟨by decide, by decide, by decide⟩

/-- A custom pattern whose regex (`/x*/`) matches the empty string and whose
replacement is the empty string — legal under the `PHIPattern` interface and
`RedactionOptions.customPatterns`. -/
def emptyLoopPattern : PHIPattern :=
  { name := "CUSTOM_EMPTY"
    description := "custom pattern matching the empty string"
    regex := .star (chr 'x')
    category := .CLINICAL
    severity := .HIGH
    replacement := "" }

/-- On input `"b"`, the replacement loop for `emptyLoopPattern` never makes
progress: `exec` yields the empty match at position 0, the replacement is
empty, and `lastIndex` is reset to `0 + 0 = 0` — the loop state repeats
forever, so the fueled model returns `none` for every fuel. -/
theorem redactPatLoop_empty_diverges (fuel : Nat) :
    ∀ (acc : List MatchEntry),
      redactPatLoop fuel emptyLoopPattern { preserveFormat := some false }
        "b".data 0 acc = none := by
  induction fuel with
  | zero => intro acc; rfl
  | succ n ih =>
    intro acc
    have hstep : redactLoopStep emptyLoopPattern
        { preserveFormat := some false } "b".data 0 =
        some (⟨"CUSTOM_EMPTY", .CLINICAL, 0, 0, .HIGH⟩, "b".data, 0) := by
      decide
    unfold redactPatLoop
    rw [hstep]
    exact ih _

/-- Claim C6 (counterexample). For the custom pattern `/x*/` with empty
replacement, one loop iteration on the input `"b"` records an empty match
and returns to exactly the previous state (same text, same `lastIndex`), so
the source's `while` loop never terminates; the fueled embedding returns
`none` at every fuel (here shown at fuel 100 and through the whole engine,
where the `redactText` call with this custom pattern never returns). -/
theorem C6_counterexample :
    redactLoopStep emptyLoopPattern { preserveFormat := some false }
        "b".data 0 =
      some (⟨"CUSTOM_EMPTY", .CLINICAL, 0, 0, .HIGH⟩, "b".data, 0) ∧
    redactPatLoop 100 emptyLoopPattern { preserveFormat := some false }
        "b".data 0 [] = none ∧
    redactTextSync PHI_PATTERNS "b"
        { preserveFormat := some false
          customPatterns := some [emptyLoopPattern] } = none :=
  ⟨by decide, by decide, by decide⟩

/-- Claim C6 (amended): after each substitution the scan resumes at
`match.index + replacement.length` — at or after the recorded match, and any
later match of the same pattern starts at or after that resume point, so a
pattern never matches inside its own replacement. The per-pattern loop
terminates (with the engine's fuel `length + 1` to spare) for every pattern
whose regex cannot match the empty string — which is the case for all 22
built-in patterns — but not for a custom pattern with a nullable regex and
empty replacement. -/
theorem C6_amended :
    PHI_PATTERNS.all (fun p => !p.regex.nullable) = true ∧
    (∀ (p : PHIPattern) (o : RedactionOptions) (t : List Char) (li : Nat)
       (m : MatchEntry) (t2 : List Char) (li2 : Nat),
       redactLoopStep p o t li = some (m, t2, li2) →
       m.position ≤ li2 ∧
       ∀ (j e2 : Nat), findMatchFrom p.regex t2 li2 = some (j, e2) →
         li2 ≤ j) ∧
    (∀ (p : PHIPattern) (o : RedactionOptions) (t : List Char)
       (acc : List MatchEntry), p.regex.nullable = false →
       (redactPatLoop (t.length + 1) p o t 0 acc).isSome = true) := by
  refine ⟨by decide, ?_, ?_⟩
  · intro p o t li m t2 li2 hstep
    constructor
    · unfold redactLoopStep at hstep
      cases hf : findMatchFrom p.regex t li with
      | none => rw [hf] at hstep; simp at hstep
      | some ie =>
        obtain ⟨i, e⟩ := ie
        rw [hf] at hstep
        simp only [Option.some.injEq, Prod.mk.injEq] at hstep
        obtain ⟨hm, -, hli2⟩ := hstep
        subst hm
        subst hli2
        exact Nat.le_add_right _ _
    · intro j e2 hfind
      exact (findMatchFrom_some _ _ _ _ _ hfind).1
  · intro p o t acc hnul
    exact redactPatLoop_terminates (t.length + 1) p o t 0 acc hnul (by omega)

/-- Claim C6 (amended, witness): a concrete SSN step on
`"123-45-6789 123-45-6789"` — the match at 0 resumes the scan at 11, the next
SSN match starts at 12 ≥ 11, and the SSN loop terminates within the engine's
fuel on a concrete input. -/
theorem C6_amended_witness :
    ((0 : Nat) ≤ 11 ∧ (11 : Nat) ≤ 12) ∧
    (redactPatLoop ("123-45-6789".data.length + 1) ssnPattern {}
      "123-45-6789".data 0 []).isSome = true :=
  ⟨⟨(C6_amended.2.1 ssnPattern {} "123-45-6789 123-45-6789".data 0
        ⟨"SSN", .DIRECT_IDENTIFIER, 0, 11, .HIGH⟩
        "XXX-XX-XXXX 123-45-6789".data 11 (by decide)).1,
    (C6_amended.2.1 ssnPattern {} "123-45-6789 123-45-6789".data 0
        ⟨"SSN", .DIRECT_IDENTIFIER, 0, 11, .HIGH⟩
        "XXX-XX-XXXX 123-45-6789".data 11 (by decide)).2 12 23 (by decide)⟩,
   C6_amended.2.2 ssnPattern {} "123-45-6789".data [] (by decide)⟩

/-- Claim C7: `redactObject` preserves the tree structure of every parsed
JSON value — same constructor at every node, same array lengths and element
order, same object keys in the same order, non-string leaves unchanged; only
string leaves may differ. -/
theorem C7_structure_preserved (pats : List PHIPattern) (t : JValue)
    (o : RedactionOptions) (v : JValue) (ms : List MatchEntry)
    (h : redactObject pats t o = some (v, ms)) :
    structPreserved t v = true :=
  redactObject_pres pats t o v ms h

/-- Claim C7 (witness): the spec's Scenario B record. -/
theorem C7_witness :
    structPreserved
      (.obj [("patient", .obj [("name", .str "Jane Smith"),
        ("ssn", .str "987-65-4321"), ("age", .num 33)])])
      (.obj [("patient", .obj [("name", .str "Jane Smith"),
        ("ssn", .str "XXX-XX-XXXX"), ("age", .num 33)])]) = true :=
  C7_structure_preserved PHI_PATTERNS
    (.obj [("patient", .obj [("name", .str "Jane Smith"),
      ("ssn", .str "987-65-4321"), ("age", .num 33)])])
    {}
    (.obj [("patient", .obj [("name", .str "Jane Smith"),
      ("ssn", .str "XXX-XX-XXXX"), ("age", .num 33)])])
    [⟨"SSN", .DIRECT_IDENTIFIER, 0, 11, .HIGH⟩]
    (by rfl)

/-- Claim C8 (counterexample). With options `preserveFormat = true,
maskCharacter = "5"` (no `encryptionKey`), the input `"1234567890123456"`
records one HIGH `CREDIT_CARD` (FINANCIAL) match and its generic mask
`"1555555555555556"` is again sixteen digits — re-running redaction on the
redacted output with the same options records another HIGH match of the same
FINANCIAL category. -/
theorem C8_counterexample :
    redactTextSync PHI_PATTERNS "1234567890123456"
        { preserveFormat := some true, maskCharacter := some "5" } =
      some ⟨"1234567890123456", "1555555555555556",
        [⟨"CREDIT_CARD", .FINANCIAL, 0, 16, .HIGH⟩], false⟩ ∧
    redactTextSync PHI_PATTERNS "1555555555555556"
        { preserveFormat := some true, maskCharacter := some "5" } =
      some ⟨"1555555555555556", "1555555555555556",
        [⟨"CREDIT_CARD", .FINANCIAL, 0, 16, .HIGH⟩], false⟩ :=
  ⟨by decide, by decide⟩

/-- Claim C8 (amended): with the default mask character, the fixed
replacement artefacts themselves never re-trigger the engine: redacting any
built-in pattern's `defaultReplacement` token alone, or any of the four fixed
shape-preserving masks, with default options records no matches at all (in
particular no HIGH-severity matches). The original claim fails only through
the generic mask when a digit `maskCharacter` is chosen. -/
theorem C8_amended :
    (PHI_PATTERNS.all fun p =>
      match redactTextSync PHI_PATTERNS p.replacement {} with
      | some r => r.«matches».isEmpty
      | none => false) = true ∧
    (["XXX-XX-XXXX", "(XXX) XXX-XXXX", "XXXXX", "XXXXX-XXXX"].all fun tok =>
      match redactTextSync PHI_PATTERNS tok {} with
      | some r => r.«matches».isEmpty
      | none => false) = true :=
  ⟨by decide, by decide⟩

/-- Claim C9 (counterexample). When no salt is supplied, `hash` draws a fresh
random salt (`salt || randomBytes(16).toString('hex')`) for each call: two
calls with the same arguments use different random salts and return
different digests. The two concrete strings below stand for the random draws
of the two calls (equal draws have probability 2⁻¹²⁸ and the KDF is
collision-free on distinct salts in the model). -/
theorem C9_counterexample :
    hash "patient" none "00aa11bb22cc33dd44ee55ff66aa77bb" ≠
      hash "patient" none "ffee00112233445566778899aabbccdd" := by
  decide

/-- Claim C9 (amended): `hash` is deterministic whenever a **non-empty** salt
is supplied — the digest does not depend on the call's random draw. (An
empty-string salt is falsy in JavaScript and falls back to the random salt,
like an absent one.) -/
theorem C9_amended (data s r1 r2 : String) (h : s ≠ "") :
    hash data (some s) r1 = hash data (some s) r2 := by
  unfold hash
  simp [h]

/-- Claim C9 (amended, witness). -/
theorem C9_amended_witness :
    hash "patient" (some "abc123") "r1r1" =
      hash "patient" (some "abc123") "r2r2" :=
  C9_amended "patient" "abc123" "r1r1" "r2r2" (by decide)

/-- Claim C10: the severity sort is stable (for every rank, the subsequence
of patterns of that rank is exactly their order in the combined list), the
combined list is the filtered catalog followed by `customPatterns` in the
order given, and concretely the applied order for a default call is the
catalog's HIGH patterns in catalog order followed by its MEDIUM patterns in
catalog order — in particular `SSN` (first) is applied before `PHONE`
(fourth). -/
theorem C10_stable_order :
    (∀ (ps : List PHIPattern) (k : Nat),
      (sortPats ps).filter (fun q => severityOrder q.severity == k) =
        ps.filter (fun q => severityOrder q.severity == k)) ∧
    (∀ (patterns : List PHIPattern) (o : RedactionOptions)
       (cps : List PHIPattern), o.customPatterns = some cps →
       getApplicablePatterns patterns o =
         builtinApplicable patterns o ++ cps) ∧
    (sortPats (getApplicablePatterns PHI_PATTERNS {})).map (fun p => p.name) =
      ["SSN", "MRN", "PATIENT_ID", "PHONE", "EMAIL", "PERSON_NAME",
       "INSURANCE_ID", "MEDICARE", "DEA_NUMBER", "NPI", "ADDRESS",
       "PRESCRIPTION_NUMBER", "LAB_ID", "ACCOUNT_NUMBER", "CREDIT_CARD",
       "PHARMACY_ID", "DATE", "ZIP_CODE", "IP_ADDRESS", "URL", "VIN",
       "LICENSE_NUMBER"] := by
  refine ⟨sortPats_stable, ?_, by decide⟩
  intro patterns o cps h
  unfold getApplicablePatterns
  rw [h]

/-- Claim C10 (witness): custom patterns are appended after the catalog. -/
theorem C10_witness :
    getApplicablePatterns PHI_PATTERNS
        { customPatterns := some [ssnPattern] } =
      builtinApplicable PHI_PATTERNS { customPatterns := some [ssnPattern] } ++
        [ssnPattern] :=
  C10_stable_order.2.1 PHI_PATTERNS { customPatterns := some [ssnPattern] }
    [ssnPattern] rfl

end Redact
